import Mathlib

/-!
Verification of the jsbattle league ranking subsystem.

The data model and the service-layer operations (`updateRank`,
`listRankTable`, `joinLeague`, `leaveLeague`) are translated from
`packages/jsbattle-server/app/services/League.service.js`.  The in-memory
rank table (`RankTable`) is consumed by that service through the methods
`init`, `add`, `remove`, `updateScore`, `getData`, `getLength`, `slice` and
`pickRandom`; its implementation file is not part of the sources at hand,
so those operations are modelled from the specification (§4.1-§4.3), each
such definition being marked `Modelled from the spec`.
-/

namespace JsBattle

/-- One league entry, with the fields the rank table tracks
(`id`, `ownerId`, `ownerName`, `scriptId`, `scriptName`, `joinedAt`,
`fights_total`, `fights_win`, `fights_lose`, `fights_error`, `score`),
mirroring the field list passed to `ranktable.add` in `joinLeague`.
Timestamps are modelled as natural numbers, the score as an integer. -/
structure RankEntry where
  id : String
  ownerId : String
  ownerName : String
  scriptId : String
  scriptName : String
  joinedAt : Nat
  fights_total : Nat
  fights_win : Nat
  fights_lose : Nat
  fights_error : Nat
  score : Int
deriving DecidableEq

/-- Composite sort key of the rank table: score descending (hence the
negation), then `joinedAt` ascending, then `id` ascending, compared
lexicographically. -/
def rankKey (e : RankEntry) : Lex (Int × Lex (Nat × String)) :=
  toLex (-e.score, toLex (e.joinedAt, e.id))

/-- Modelled from the spec: the iteration order of the rank table is a
total order by `score` descending, ties broken by `joinedAt` ascending
then by `id` ascending (§3). -/
def rankLE (a b : RankEntry) : Prop :=
  b.score < a.score ∨ (b.score = a.score ∧
    (a.joinedAt < b.joinedAt ∨ (a.joinedAt = b.joinedAt ∧ a.id ≤ b.id)))

instance : DecidableRel rankLE := fun a b => by
  unfold rankLE; infer_instance

theorem rankLE_iff_key {a b : RankEntry} : rankLE a b ↔ rankKey a ≤ rankKey b := by
  simp only [rankLE, rankKey, Prod.Lex.le_iff, neg_lt_neg_iff, neg_inj, ofLex_toLex]
  constructor
  · rintro (h | ⟨h, h2⟩)
    · exact Or.inl h
    · exact Or.inr ⟨h.symm, h2⟩
  · rintro (h | ⟨h, h2⟩)
    · exact Or.inl h
    · exact Or.inr ⟨h.symm, h2⟩

instance : IsTrans RankEntry rankLE :=
  ⟨fun _ _ _ hab hbc =>
    rankLE_iff_key.mpr (le_trans (rankLE_iff_key.mp hab) (rankLE_iff_key.mp hbc))⟩

instance : IsTotal RankEntry rankLE :=
  ⟨fun a b =>
    (le_total (rankKey a) (rankKey b)).imp rankLE_iff_key.mpr rankLE_iff_key.mpr⟩

instance : IsRefl RankEntry rankLE :=
  ⟨fun _ => rankLE_iff_key.mpr (le_refl _)⟩

/-- Two entries below each other in both directions agree on `id`:
the third component of the sort key. -/
theorem rankLE_antisymm_id {a b : RankEntry} (h1 : rankLE a b) (h2 : rankLE b a) :
    a.id = b.id := by
  have hk := le_antisymm (rankLE_iff_key.mp h1) (rankLE_iff_key.mp h2)
  simp only [rankKey, toLex_inj, Prod.mk.injEq] at hk
  exact hk.2.2

/-- Errors surfaced by the rank table (§7), plus the sampler's reaction to a
table with no valid pair at all. -/
inductive LeagueErr where
  | NotFound
  | DuplicateId
  | InsufficientEntries
  | NoValidPair
  | NotAuthorized
deriving DecidableEq

/-- Modelled from the spec: `Add` inserts a new entry at its sorted position
and fails with `DuplicateId` if the id is already present (§4.1). -/
def rtAdd (e : RankEntry) (rt : List RankEntry) : Except LeagueErr (List RankEntry) :=
  if rt.any (fun x => decide (x.id = e.id)) then .error .DuplicateId
  else .ok (List.orderedInsert rankLE e rt)

/-- Removal of every entry carrying a given id (at most one in a
well-formed table). -/
def rtRemoveList (i : String) (rt : List RankEntry) : List RankEntry :=
  rt.filter (fun e => decide (¬ e.id = i))

/-- Modelled from the spec: `Remove` deletes the entry and fails with
`NotFound` if the id is absent (§4.1). -/
def rtRemove (i : String) (rt : List RankEntry) : Except LeagueErr (List RankEntry) :=
  if rt.any (fun e => decide (e.id = i)) then .ok (rtRemoveList i rt)
  else .error .NotFound

/-- Replacement of the four mutable fields handed to
`ranktable.updateScore(id, score, fights_total, fights_win, fights_lose)`. -/
def updFields (s : Int) (ft fw fl : Nat) (e : RankEntry) : RankEntry :=
  { e with score := s, fights_total := ft, fights_win := fw, fights_lose := fl }

/-- Modelled from the spec: `UpdateScore` replaces the four fields on the
existing entry and repositions it to preserve the sort invariant, failing
with `NotFound` if the id is absent (§4.1).  Stated here as "replace the
fields, then re-establish the order". -/
def rtUpdateScore (i : String) (s : Int) (ft fw fl : Nat) (rt : List RankEntry) :
    Except LeagueErr (List RankEntry) :=
  if rt.any (fun e => decide (e.id = i)) then
    .ok (List.insertionSort rankLE
      (rt.map (fun e => if e.id = i then updFields s ft fw fl e else e)))
  else .error .NotFound

/-- Modelled from the spec: `Init` replaces the entire index content with
the given entries, re-establishing the sort order (§4.1). -/
def rtInit (entries : List RankEntry) : List RankEntry :=
  List.insertionSort rankLE entries

/-- One mutation call against the rank table, for reasoning about call
sequences. -/
inductive RankOp where
  | addOp (e : RankEntry)
  | removeOp (i : String)
  | updateScoreOp (i : String) (s : Int) (ft fw fl : Nat)
  | initOp (entries : List RankEntry)

/-- A failed call raises an exception before mutating, so it leaves the
table as it was. -/
def orElseSame (r : Except LeagueErr (List RankEntry)) (rt : List RankEntry) :
    List RankEntry :=
  match r with
  | .ok t => t
  | .error _ => rt

def applyOp (op : RankOp) (rt : List RankEntry) : List RankEntry :=
  match op with
  | .addOp e => orElseSame (rtAdd e rt) rt
  | .removeOp i => orElseSame (rtRemove i rt) rt
  | .updateScoreOp i s ft fw fl => orElseSame (rtUpdateScore i s ft fw fl rt) rt
  | .initOp es => rtInit es

def applyOps (ops : List RankOp) (rt : List RankEntry) : List RankEntry :=
  ops.foldl (fun t op => applyOp op t) rt

theorem applyOp_sorted (op : RankOp) (rt : List RankEntry)
    (h : List.Sorted rankLE rt) : List.Sorted rankLE (applyOp op rt) := by
  cases op with
  | addOp e =>
    simp only [applyOp, rtAdd]
    split
    · exact h
    · exact h.orderedInsert e rt
  | removeOp i =>
    simp only [applyOp, rtRemove]
    split
    · exact h.filter _
    · exact h
  | updateScoreOp i s ft fw fl =>
    simp only [applyOp, rtUpdateScore]
    split
    · exact List.sorted_insertionSort rankLE _
    · exact h
  | initOp es =>
    exact List.sorted_insertionSort rankLE es

theorem applyOps_sorted (ops : List RankOp) (rt : List RankEntry)
    (h : List.Sorted rankLE rt) : List.Sorted rankLE (applyOps ops rt) := by
  induction ops generalizing rt with
  | nil => exact h
  | cons op rest ih => exact ih _ (applyOp_sorted op rt h)

/-- C1: after any sequence of `Add`/`Remove`/`UpdateScore`/`Init` calls
starting from the empty index, iterating the full table yields entries
sorted by score descending, ties broken by `joinedAt` ascending then by
`id` ascending (that composite order is `rankLE`). -/
theorem rank_table_sort_invariant (ops : List RankOp) :
    List.Sorted rankLE (applyOps ops []) :=
  applyOps_sorted ops [] List.sorted_nil

/-- JavaScript `Math.round`: round half toward positive infinity. -/
def jsRound (q : ℚ) : Int := ⌊q + 1 / 2⌋

/-- The `newScore` value computed by `updateRank` in League.service.js:
`score + (10000 - score)/25` on a win, `score + (0 - score)/25` on a
loss, over exact rational arithmetic. -/
def updateRankNewScore (winner : Bool) (score : Int) : ℚ :=
  if winner then (score : ℚ) + ((10000 : ℚ) - (score : ℚ)) / 25
  else (score : ℚ) + ((0 : ℚ) - (score : ℚ)) / 25

/-- The `newEntity` record built by `updateRank`: `fights_total + 1`, the
win/lose counter matching the outcome incremented, and the rounded new
score; these are exactly the four values it then passes to
`ranktable.updateScore`. -/
def updateRankNewEntity (winner : Bool) (e : RankEntry) : RankEntry :=
  updFields (jsRound (updateRankNewScore winner e.score))
    (e.fights_total + 1)
    (e.fights_win + (if winner then 1 else 0))
    (e.fights_lose + (if winner then 0 else 1)) e

/-- A deterministic sample entry, used to build concrete tables. -/
def mkSampleEntry (i : Nat) : RankEntry :=
  { id := toString i
    ownerId := "owner" ++ toString i
    ownerName := "name" ++ toString i
    scriptId := "script" ++ toString i
    scriptName := "tank" ++ toString i
    joinedAt := i
    fights_total := 0
    fights_win := 0
    fights_lose := 0
    fights_error := 0
    score := 0 }

/-- A concrete table of `n` sample entries. -/
def sampleTable (n : Nat) : List RankEntry := (List.range n).map mkSampleEntry

/-- C2: `updateRank` with `winner = true` maps an entry of score `s` to
`round(s + (10000 - s)/25)` and with `winner = false` to
`round(s + (0 - s)/25)`; starting from score 0 the sequence win, win,
lose yields the scores 400, 784, 753. -/
theorem updateRank_score_formula :
    (∀ e : RankEntry,
      (updateRankNewEntity true e).score
          = jsRound ((e.score : ℚ) + ((10000 : ℚ) - (e.score : ℚ)) / 25) ∧
      (updateRankNewEntity false e).score
          = jsRound ((e.score : ℚ) + ((0 : ℚ) - (e.score : ℚ)) / 25)) ∧
    (updateRankNewEntity true (mkSampleEntry 0)).score = 400 ∧
    (updateRankNewEntity true (updateRankNewEntity true (mkSampleEntry 0))).score = 784 ∧
    (updateRankNewEntity false
      (updateRankNewEntity true (updateRankNewEntity true (mkSampleEntry 0)))).score = 753 := by
  refine ⟨fun e => ⟨rfl, rfl⟩, ?_, ?_, ?_⟩
  · show jsRound (updateRankNewScore true (mkSampleEntry 0).score) = 400
    norm_num [updateRankNewScore, mkSampleEntry, jsRound]
  · show jsRound (updateRankNewScore true
      (updateRankNewEntity true (mkSampleEntry 0)).score) = 784
    have h1 : (updateRankNewEntity true (mkSampleEntry 0)).score = 400 := by
      show jsRound (updateRankNewScore true (mkSampleEntry 0).score) = 400
      norm_num [updateRankNewScore, mkSampleEntry, jsRound]
    rw [h1]
    norm_num [updateRankNewScore, jsRound]
  · show jsRound (updateRankNewScore false
      (updateRankNewEntity true (updateRankNewEntity true (mkSampleEntry 0))).score) = 753
    have h1 : (updateRankNewEntity true (mkSampleEntry 0)).score = 400 := by
      show jsRound (updateRankNewScore true (mkSampleEntry 0).score) = 400
      norm_num [updateRankNewScore, mkSampleEntry, jsRound]
    have h2 : (updateRankNewEntity true (updateRankNewEntity true (mkSampleEntry 0))).score = 784 := by
      show jsRound (updateRankNewScore true
        (updateRankNewEntity true (mkSampleEntry 0)).score) = 784
      rw [h1]
      norm_num [updateRankNewScore, jsRound]
    rw [h2]
    norm_num [updateRankNewScore, jsRound]

/-- C7: `updateRank` keeps `fights_total = fights_win + fights_lose`:
the total goes up by exactly one, and exactly one of the win/lose
counters goes up by one while the other is unchanged. -/
theorem updateRank_fights_accounting (winner : Bool) (e : RankEntry)
    (h : e.fights_total = e.fights_win + e.fights_lose) :
    (updateRankNewEntity winner e).fights_total
        = (updateRankNewEntity winner e).fights_win
          + (updateRankNewEntity winner e).fights_lose ∧
    (updateRankNewEntity winner e).fights_total = e.fights_total + 1 ∧
    (winner = true →
      (updateRankNewEntity winner e).fights_win = e.fights_win + 1 ∧
      (updateRankNewEntity winner e).fights_lose = e.fights_lose) ∧
    (winner = false →
      (updateRankNewEntity winner e).fights_lose = e.fights_lose + 1 ∧
      (updateRankNewEntity winner e).fights_win = e.fights_win) := by
  cases winner <;> simp [updateRankNewEntity, updFields] <;> omega

/-- Witness for C7 at a concrete entry with `0 = 0 + 0`. -/
theorem updateRank_fights_accounting_witness :
    (updateRankNewEntity true (mkSampleEntry 0)).fights_total
        = (updateRankNewEntity true (mkSampleEntry 0)).fights_win
          + (updateRankNewEntity true (mkSampleEntry 0)).fights_lose :=
  (updateRank_fights_accounting true (mkSampleEntry 0) rfl).1

/-- JavaScript truthiness of the `v || d` default pattern on validated
positive numbers: `undefined` and `0` fall back to the default. -/
def jsOr (v : Option Nat) (d : Nat) : Nat :=
  match v with
  | none => d
  | some 0 => d
  | some n => n

/-- JavaScript `Array.prototype.slice(b, e)` for non-negative bounds. -/
def jsSlice (b e : Nat) (l : List RankEntry) : List RankEntry :=
  (l.drop b).take (e - b)

/-- The spec's `Page(offset, count)` operation; in the source this is the
expression `this.ranktable.getData().slice(offset, offset + pageSize)`. -/
def pageQuery (offset cnt : Nat) (rt : List RankEntry) : List RankEntry :=
  jsSlice offset (offset + cnt) rt

/-- Result record of the `listRankTable` action. -/
structure ListRankTableResult where
  rows : List RankEntry
  page : Nat
  pageSize : Nat
  total : Nat
  totalPages : Nat
deriving DecidableEq

/-- Embedding of `listRankTable` from League.service.js: `page` defaults to 1,
`pageSize` to 10, `offset = (page - 1) * pageSize`, and the rows are the
slice `[offset, offset + pageSize)` of the sorted table
(`Math.ceil(total / pageSize)` is natural-number ceiling division). -/
def listRankTable (pageArg pageSizeArg : Option Nat) (rt : List RankEntry) :
    ListRankTableResult :=
  let page := jsOr pageArg 1
  let pageSize := jsOr pageSizeArg 10
  let total := rt.length
  let totalPages := (total + pageSize - 1) / pageSize
  let offset := (page - 1) * pageSize
  { rows := pageQuery offset pageSize rt
    page := page
    pageSize := pageSize
    total := total
    totalPages := totalPages }

theorem jsOr_pos {n : Nat} (h : 1 ≤ n) (d : Nat) : jsOr (some n) d = n := by
  cases n with
  | zero => omega
  | succ m => rfl

theorem pageQuery_getElem (offset cnt : Nat) (rt : List RankEntry) (i : Nat) :
    (pageQuery offset cnt rt)[i]? = if i < cnt then rt[offset + i]? else none := by
  simp only [pageQuery, jsSlice, Nat.add_sub_cancel_left, List.getElem?_take,
    List.getElem?_drop]

/-- C4: `listRankTable` pages through the sorted table: with validated
`page ≥ 1` and `pageSize ≥ 1` its rows are `Page((page-1)*pageSize,
pageSize)`; a page holds up to `count` entries starting at `offset` in
table order, is shorter when the table runs out, and is empty once
`offset ≥ length`; the defaults are page 1 and pageSize 10; and over a
25-entry table with count 10 the offsets 0, 10, 20, 25 give 10, 10, 5
and 0 entries. -/
theorem listRankTable_pagination (page pageSize : Nat)
    (hp : 1 ≤ page) (hps : 1 ≤ pageSize) (rt : List RankEntry) :
    (listRankTable (some page) (some pageSize) rt).rows
        = pageQuery ((page - 1) * pageSize) pageSize rt ∧
    (∀ offset cnt : Nat,
      (pageQuery offset cnt rt).length = min cnt (rt.length - offset) ∧
      (rt.length ≤ offset → pageQuery offset cnt rt = []) ∧
      (∀ i : Nat, (pageQuery offset cnt rt)[i]?
          = if i < cnt then rt[offset + i]? else none) ∧
      (List.Sorted rankLE rt → List.Sorted rankLE (pageQuery offset cnt rt))) ∧
    (∀ rt2 : List RankEntry, listRankTable none none rt2
        = listRankTable (some 1) (some 10) rt2) ∧
    (pageQuery 0 10 (sampleTable 25)).length = 10 ∧
    (pageQuery 10 10 (sampleTable 25)).length = 10 ∧
    (pageQuery 20 10 (sampleTable 25)).length = 5 ∧
    pageQuery 25 10 (sampleTable 25) = [] := by
  have hlen : ∀ (offset cnt : Nat) (l : List RankEntry),
      (pageQuery offset cnt l).length = min cnt (l.length - offset) := by
    intro offset cnt l
    simp [pageQuery, jsSlice]
  refine ⟨?_, fun offset cnt => ⟨hlen offset cnt rt, ?_, pageQuery_getElem offset cnt rt, ?_⟩,
    fun rt2 => rfl, ?_, ?_, ?_, ?_⟩
  · simp only [listRankTable, jsOr_pos hp, jsOr_pos hps]
  · intro hle
    simp [pageQuery, jsSlice, List.drop_eq_nil_of_le hle]
  · intro hs
    exact hs.sublist ((List.take_sublist _ _).trans (List.drop_sublist _ _))
  · rw [hlen]; simp [sampleTable]
  · rw [hlen]; simp [sampleTable]
  · rw [hlen]; simp [sampleTable]
  · have : (sampleTable 25).length ≤ 25 := by simp [sampleTable]
    simp [pageQuery, jsSlice, List.drop_eq_nil_of_le this]

/-- Witness for C4 at page 1, pageSize 10 over the concrete 25-entry
table. -/
theorem listRankTable_pagination_witness :
    (listRankTable (some 1) (some 10) (sampleTable 25)).rows
        = pageQuery 0 10 (sampleTable 25) := by
  simpa using
    (listRankTable_pagination 1 10 (by norm_num) (by norm_num) (sampleTable 25)).1

/-- Zero-based rank of the first entry carrying a given id. -/
def rankOf (a : String) : List RankEntry → Option Nat
  | [] => none
  | e :: rest => if e.id = a then some 0 else (rankOf a rest).map (· + 1)

theorem rankOf_getElem {a : String} {rt : List RankEntry} {r : Nat}
    (h : rankOf a rt = some r) :
    r < rt.length ∧ ∃ e, rt[r]? = some e ∧ e.id = a := by
  induction rt generalizing r with
  | nil => simp [rankOf] at h
  | cons x xs ih =>
    by_cases hx : x.id = a
    · simp only [rankOf, if_pos hx] at h
      obtain rfl := (Option.some_inj.mp h).symm
      exact ⟨Nat.succ_pos _, x, List.getElem?_cons_zero, hx⟩
    · simp only [rankOf, if_neg hx, Option.map_eq_some'] at h
      obtain ⟨r', hr', rfl⟩ := h
      obtain ⟨hlt, e, he, hid⟩ := ih hr'
      refine ⟨by simpa using hlt, e, ?_, hid⟩
      simpa using he

/-- Modelled from the spec: `RankTable.slice(anchorId, w)` — the anchor
centered window of §4.2: all entries when the table fits in the window,
otherwise the `w` entries around the anchor's rank, shifted toward the
interior at the edges, and the top `w` entries when there is no anchor. -/
def rtSlice (anchor : Option String) (w : Nat) (rt : List RankEntry) :
    List RankEntry :=
  if rt.length ≤ w then rt
  else
    match anchor.bind (fun a => rankOf a rt) with
    | some r => (rt.drop (min (r - w / 2) (rt.length - w))).take w
    | none => rt.take w

theorem rtSlice_sublist (anchor : Option String) (w : Nat) (rt : List RankEntry) :
    List.Sublist (rtSlice anchor w rt) rt := by
  unfold rtSlice
  split
  · exact List.Sublist.refl rt
  · split
    · exact (List.take_sublist _ _).trans (List.drop_sublist _ _)
    · exact List.take_sublist _ _

/-- C3: the window query returns the whole table when it has at most `w`
entries (whatever the anchor is); when the table is larger and the anchor
id sits at rank `r`, it returns exactly `w` entries forming a contiguous
band of the table around `r` that contains the anchor entry; any window
preserves the global sort order. -/
theorem window_query (anchor : Option String) (a : String) (w r : Nat)
    (rt : List RankEntry) (hw : 1 ≤ w) :
    (rt.length ≤ w → rtSlice anchor w rt = rt) ∧
    (List.Sorted rankLE rt → List.Sorted rankLE (rtSlice anchor w rt)) ∧
    (w < rt.length → rankOf a rt = some r →
      (rtSlice (some a) w rt).length = w ∧
      (∃ lo, lo ≤ r ∧ r < lo + w ∧ lo + w ≤ rt.length ∧
        rtSlice (some a) w rt = (rt.drop lo).take w) ∧
      (∃ e ∈ rtSlice (some a) w rt, e.id = a)) := by
  refine ⟨fun hle => by simp [rtSlice, if_pos hle], fun hs => hs.sublist (rtSlice_sublist anchor w rt), ?_⟩
  intro hn hrank
  obtain ⟨hr, e, he, hid⟩ := rankOf_getElem hrank
  have hcond : ¬ rt.length ≤ w := not_le.mpr hn
  have hslice : rtSlice (some a) w rt
      = (rt.drop (min (r - w / 2) (rt.length - w))).take w := by
    simp only [rtSlice, if_neg hcond, Option.some_bind, hrank]
  set lo := min (r - w / 2) (rt.length - w) with hlo
  have h1 : lo ≤ r := by omega
  have h2 : r < lo + w := by omega
  have h3 : lo + w ≤ rt.length := by omega
  have hlen : (rtSlice (some a) w rt).length = w := by
    rw [hslice]
    simp only [List.length_take, List.length_drop]
    omega
  refine ⟨hlen, ⟨lo, h1, h2, h3, hslice⟩, e, ?_, hid⟩
  have hget : (rtSlice (some a) w rt)[r - lo]? = some e := by
    rw [hslice, List.getElem?_take, if_pos (by omega : r - lo < w), List.getElem?_drop,
      (by omega : lo + (r - lo) = r), he]
  obtain ⟨hb, hx⟩ := List.getElem?_eq_some.mp hget
  exact hx ▸ List.getElem_mem hb

/-- Witness for C3 with window size 9 over the concrete 25-entry table,
anchored at the entry with id `toString 15` (rank 15). -/
theorem window_query_witness :
    (rtSlice (some (toString 15)) 9 (sampleTable 25)).length = 9 := by
  have h := (window_query (some (toString 15)) (toString 15) 9 15 (sampleTable 25)
    (by norm_num)).2.2
  exact (h (by simp [sampleTable]) (by decide)).1

/-- Every unordered pair of entries of the table, each pair listed once. -/
def allPairs : List RankEntry → List (RankEntry × RankEntry)
  | [] => []
  | x :: xs => xs.map (fun y => (x, y)) ++ allPairs xs

/-- Modelled from the spec: the valid opponent pairs of §4.3 — unordered
pairs with distinct `id` and distinct `scriptId`. -/
def validPairs (rt : List RankEntry) : List (RankEntry × RankEntry) :=
  (allPairs rt).filter
    (fun p => decide (¬ p.1.id = p.2.id) && decide (¬ p.1.scriptId = p.2.scriptId))

/-- Modelled from the spec: `RankTable.pickRandom` requires at least two
entries and fails with `InsufficientEntries` ("no opponents available")
otherwise; the injectable random source selects one valid pair (§4.3). -/
def rtPickRandom (rand : Nat) (rt : List RankEntry) :
    Except LeagueErr (RankEntry × RankEntry) :=
  if rt.length < 2 then .error .InsufficientEntries
  else
    match (validPairs rt)[rand % (validPairs rt).length]? with
    | some p => .ok p
    | none => .error .NoValidPair

/-- C5: the random opponent pick fails with `InsufficientEntries` exactly
on tables of fewer than two entries: with fewer than two it always
returns that failure, and with at least two it never does. -/
theorem pickRandom_insufficient (rand : Nat) (rt : List RankEntry) :
    (rt.length < 2 → rtPickRandom rand rt = .error .InsufficientEntries) ∧
    (2 ≤ rt.length → rtPickRandom rand rt ≠ .error .InsufficientEntries) := by
  constructor
  · intro h
    simp [rtPickRandom, if_pos h]
  · intro h
    have hcond : ¬ rt.length < 2 := not_lt.mpr h
    rcases hp : (validPairs rt)[rand % (validPairs rt).length]? with _ | p <;>
      simp [rtPickRandom, if_neg hcond, hp]

/-- Witness for C5 on the empty table and on a concrete two-entry table. -/
theorem pickRandom_insufficient_witness :
    rtPickRandom 0 [] = .error .InsufficientEntries ∧
    rtPickRandom 0 (sampleTable 2) ≠ .error .InsufficientEntries :=
  ⟨(pickRandom_insufficient 0 []).1 (by norm_num),
   (pickRandom_insufficient 0 (sampleTable 2)).2 (by simp [sampleTable])⟩

theorem mem_allPairs_of_getElem {rt : List RankEntry} {i : Nat}
    {p : RankEntry × RankEntry} (h : (validPairs rt)[i]? = some p) :
    ¬ p.1.id = p.2.id ∧ ¬ p.1.scriptId = p.2.scriptId := by
  obtain ⟨hb, hx⟩ := List.getElem?_eq_some.mp h
  have hmem : p ∈ validPairs rt := hx ▸ List.getElem_mem hb
  have := (List.mem_filter.mp hmem).2
  simpa using this

/-- C6: every successful random opponent pick on a table of at least two
entries returns a pair whose `id` fields differ and whose `scriptId`
fields differ. -/
theorem pickRandom_distinct (rand : Nat) (rt : List RankEntry)
    (p : RankEntry × RankEntry) (h2 : 2 ≤ rt.length)
    (h : rtPickRandom rand rt = .ok p) :
    ¬ p.1.id = p.2.id ∧ ¬ p.1.scriptId = p.2.scriptId := by
  have hcond : ¬ rt.length < 2 := not_lt.mpr h2
  rcases hp : (validPairs rt)[rand % (validPairs rt).length]? with _ | q
  · simp [rtPickRandom, if_neg hcond, hp] at h
  · simp only [rtPickRandom, if_neg hcond, hp, Except.ok.injEq] at h
    exact h ▸ mem_allPairs_of_getElem hp

/-- Witness for C6 on a concrete two-entry table. -/
theorem pickRandom_distinct_witness :
    ¬ (mkSampleEntry 0).id = (mkSampleEntry 1).id ∧
    ¬ (mkSampleEntry 0).scriptId = (mkSampleEntry 1).scriptId :=
  pickRandom_distinct 0 (sampleTable 2) (mkSampleEntry 0, mkSampleEntry 1)
    (by simp [sampleTable]) rfl

/-- Two sorted lists with the same multiset of entries and pairwise
distinct ids are equal: id-uniqueness stands in for antisymmetry of the
sort order. -/
theorem sorted_eq_of_perm : ∀ {l₁ l₂ : List RankEntry}, l₁.Perm l₂ →
    List.Sorted rankLE l₁ → List.Sorted rankLE l₂ →
    (l₁.map RankEntry.id).Nodup → l₁ = l₂ := by
  intro l₁
  induction l₁ with
  | nil =>
    intro l₂ hp _ _ _
    exact (hp.symm.eq_nil).symm
  | cons a t₁ ih =>
    intro l₂ hp h₁ h₂ hnd
    cases l₂ with
    | nil => exact absurd hp.eq_nil (by simp)
    | cons b t₂ =>
      have hab : a = b := by
        by_contra hne
        have ha2 : a ∈ t₂ := by
          have : a ∈ b :: t₂ := hp.mem_iff.mp (List.mem_cons_self a t₁)
          exact (List.mem_cons.mp this).resolve_left hne
        have hb1 : b ∈ t₁ := by
          have : b ∈ a :: t₁ := hp.mem_iff.mpr (List.mem_cons_self b t₂)
          exact (List.mem_cons.mp this).resolve_left (fun h => hne h.symm)
        have hle1 : rankLE a b := List.rel_of_sorted_cons h₁ b hb1
        have hle2 : rankLE b a := List.rel_of_sorted_cons h₂ a ha2
        have hid : a.id = b.id := rankLE_antisymm_id hle1 hle2
        have : a.id ∈ t₁.map RankEntry.id := hid ▸ List.mem_map_of_mem RankEntry.id hb1
        simp only [List.map_cons, List.nodup_cons] at hnd
        exact hnd.1 this
      subst hab
      have htails : t₁ = t₂ :=
        ih hp.cons_inv h₁.of_cons h₂.of_cons (by
          simp only [List.map_cons, List.nodup_cons] at hnd
          exact hnd.2)
      rw [htails]

/-- Replacing the four fields on the one entry carrying `i` permutes the
table into the updated entry consed onto the table without `i`. -/
theorem upd_map_perm (s : Int) (ft fw fl : Nat) (i : String) :
    ∀ (rt : List RankEntry), (rt.map RankEntry.id).Nodup →
    ∀ e : RankEntry, rt.find? (fun x => decide (x.id = i)) = some e →
      (rt.map (fun x => if x.id = i then updFields s ft fw fl x else x)).Perm
        (updFields s ft fw fl e :: rtRemoveList i rt) := by
  intro rt
  induction rt with
  | nil => intro _ e hfind; simp at hfind
  | cons x xs ih =>
    intro hnd e hfind
    by_cases hx : x.id = i
    · have he : e = x := by
        rw [List.find?_cons_of_pos _ (by simpa using hx)] at hfind
        exact (Option.some_inj.mp hfind).symm
      rw [he]
      have hxs_id : ∀ y ∈ xs, ¬ y.id = i := by
        intro y hy hyid
        simp only [List.map_cons, List.nodup_cons] at hnd
        exact hnd.1 ((hx.trans hyid.symm) ▸ List.mem_map_of_mem RankEntry.id hy)
      have hmap : xs.map (fun y => if y.id = i then updFields s ft fw fl y else y) = xs := by
        rw [List.map_congr_left (fun y hy => if_neg (hxs_id y hy))]
        exact List.map_id xs
      have hfilter : rtRemoveList i (x :: xs) = xs := by
        rw [rtRemoveList]
        rw [show List.filter (fun e => decide (¬ e.id = i)) (x :: xs)
            = List.filter (fun e => decide (¬ e.id = i)) xs from by
          simp [List.filter_cons, hx]]
        exact List.filter_eq_self.mpr (fun y hy => decide_eq_true (hxs_id y hy))
      rw [hfilter]
      simp only [List.map_cons, if_pos hx, hmap]
      exact List.Perm.refl _
    · have hfind' : xs.find? (fun y => decide (y.id = i)) = some e := by
        rwa [List.find?_cons_of_neg _ (by simpa using hx)] at hfind
      have hnd' : (xs.map RankEntry.id).Nodup := by
        simp only [List.map_cons, List.nodup_cons] at hnd
        exact hnd.2
      have hfilter : rtRemoveList i (x :: xs) = x :: rtRemoveList i xs := by
        simp [rtRemoveList, List.filter_cons, hx]
      rw [hfilter]
      simp only [List.map_cons, if_neg hx]
      exact (List.Perm.cons x (ih hnd' e hfind')).trans
        (List.Perm.swap (updFields s ft fw fl e) x (rtRemoveList i xs))

theorem find?_id_mem {rt : List RankEntry} {i : String} {e : RankEntry}
    (hfind : rt.find? (fun x => decide (x.id = i)) = some e) :
    e ∈ rt ∧ e.id = i :=
  ⟨List.mem_of_find?_eq_some hfind, by simpa using List.find?_some hfind⟩

/-- C8: on a well-formed table containing `i`, `UpdateScore(i, s, ft, fw,
fl)` produces exactly the table obtained by `Remove(i)` followed by `Add`
of the old entry with the four fields replaced and every other field
unchanged: the updated entry sits at the sorted position of its new
score. -/
theorem updateScore_is_remove_then_add (i : String) (s : Int) (ft fw fl : Nat)
    (rt : List RankEntry) (e : RankEntry)
    (hsorted : List.Sorted rankLE rt)
    (hnd : (rt.map RankEntry.id).Nodup)
    (hfind : rt.find? (fun x => decide (x.id = i)) = some e) :
    rtUpdateScore i s ft fw fl rt
      = (rtRemove i rt).bind (fun rt2 => rtAdd (updFields s ft fw fl e) rt2) := by
  obtain ⟨hmem, hid⟩ := find?_id_mem hfind
  have hany : rt.any (fun x => decide (x.id = i)) = true :=
    List.any_eq_true.mpr ⟨e, hmem, by simpa using hid⟩
  have hany2 : (rtRemoveList i rt).any
      (fun x => decide (x.id = (updFields s ft fw fl e).id)) = false := by
    rw [List.any_eq_false]
    intro x hx
    have : ¬ x.id = i := by
      have := (List.mem_filter.mp hx).2
      simpa using this
    simp only [updFields, hid]
    simpa using this
  simp only [rtUpdateScore, rtRemove, rtAdd, hany, if_true, Except.bind, hany2,
    Bool.false_eq_true, if_false, Except.ok.injEq]
  refine sorted_eq_of_perm ?_ (List.sorted_insertionSort rankLE _)
    ((hsorted.filter _).orderedInsert _ _) ?_
  · exact ((List.perm_insertionSort rankLE _).trans
      (upd_map_perm s ft fw fl i rt hnd e hfind)).trans
      (List.perm_orderedInsert rankLE _ _).symm
  · have hids : (rt.map (fun x => if x.id = i then updFields s ft fw fl x else x)).map
        RankEntry.id = rt.map RankEntry.id := by
      rw [List.map_map]
      refine List.map_congr_left (fun x _ => ?_)
      by_cases hx : x.id = i <;> simp [updFields, hx]
    have hperm := (List.perm_insertionSort rankLE
      (rt.map (fun x => if x.id = i then updFields s ft fw fl x else x))).map RankEntry.id
    rw [hids] at hperm
    exact hperm.nodup_iff.mpr hnd

/-- Witness for C8 on a concrete sorted two-entry table, updating the
entry with id `toString 1` to score 5. -/
theorem updateScore_is_remove_then_add_witness :
    rtUpdateScore (toString 1) 5 1 1 0 (sampleTable 2)
      = (rtRemove (toString 1) (sampleTable 2)).bind
          (fun rt2 => rtAdd (updFields 5 1 1 0 (mkSampleEntry 1)) rt2) :=
  updateScore_is_remove_then_add (toString 1) 5 1 1 0 (sampleTable 2)
    (mkSampleEntry 1) (by decide) (by decide) (by decide)

/-- A persisted league record: the rank-table fields plus the `code` and
`hash` columns kept only in the store. -/
structure StoreEntry where
  id : String
  ownerId : String
  ownerName : String
  scriptId : String
  scriptName : String
  joinedAt : Nat
  fights_total : Nat
  fights_win : Nat
  fights_lose : Nat
  fights_error : Nat
  score : Int
  code : String
  hash : String
deriving DecidableEq

/-- The field selection `joinLeague` passes from the created store record
to `ranktable.add`. -/
def StoreEntry.toRank (e : StoreEntry) : RankEntry :=
  { id := e.id
    ownerId := e.ownerId
    ownerName := e.ownerName
    scriptId := e.scriptId
    scriptName := e.scriptName
    joinedAt := e.joinedAt
    fights_total := e.fights_total
    fights_win := e.fights_win
    fights_lose := e.fights_lose
    fights_error := e.fights_error
    score := e.score }

/-- A user script as returned by `scriptStore.getUserScript`. -/
structure Script where
  id : String
  ownerId : String
  ownerName : String
  scriptName : String
  code : String
  hash : String
deriving DecidableEq

/-- The combined state of the persistent collection and the in-memory
rank table. -/
structure LeagueState where
  store : List StoreEntry
  rt : List RankEntry
deriving DecidableEq

def emptyLeague : LeagueState := { store := [], rt := [] }

/-- Embedding of `getUserSubmission`: the store query on `ownerId` with
`limit: 1` — the first stored entry of the owner, if any. -/
def getUserSubmission (userId : String) (store : List StoreEntry) :
    Option StoreEntry :=
  (store.filter (fun e => decide (e.ownerId = userId))).head?

/-- Embedding of `leaveLeague` from League.service.js: query the submissions,
issue `league.remove {id}` for each against the store and
`ranktable.remove(id)` for each against the table. -/
def leaveLeague (userId : String) (s : LeagueState) : LeagueState :=
  let submissions := s.store.filter (fun e => decide (e.ownerId = userId))
  { store := submissions.foldl
      (fun st sub => st.filter (fun e => decide (¬ e.id = sub.id))) s.store
    rt := submissions.foldl (fun t sub => rtRemoveList sub.id t) s.rt }

/-- The record `league.create` persists inside `joinLeague`: the
`addDefaults` hook sets `joinedAt` to the current time, zeroes the fight
counters and keeps `score || 0` (identical to `startingScore`, whose only
falsy value is 0); the store assigns the fresh `id`.  Obfuscation only
rewrites the `code` string and is configuration-dependent, so the code is
carried over unchanged. -/
def mkJoinEntity (script : Script) (startingScore : Int) (newId : String)
    (now : Nat) : StoreEntry :=
  { id := newId
    ownerId := script.ownerId
    ownerName := script.ownerName
    scriptId := script.id
    scriptName := script.scriptName
    joinedAt := now
    fights_total := 0
    fights_win := 0
    fights_lose := 0
    fights_error := 0
    score := startingScore
    code := script.code
    hash := script.hash }

/-- The `startingScore` computed by `joinLeague`: the current
submission's score when re-joining with the same `scriptId`, otherwise 0. -/
def joinStartScore (userId : String) (script : Script)
    (store : List StoreEntry) : Int :=
  match getUserSubmission userId store with
  | some sub => if script.id = sub.scriptId then sub.score else 0
  | none => 0

/-- Embedding of `joinLeague` from League.service.js: the ownership check, the
starting-score read, `leaveLeague`, `league.create` of the new entity and
`ranktable.add` of its rank fields (an add that failed would leave the
table unchanged). -/
def joinLeague (userId : String) (script : Script) (newId : String)
    (now : Nat) (s : LeagueState) : Except LeagueErr LeagueState :=
  if ¬ script.ownerId = userId then .error .NotAuthorized
  else
    let startingScore := joinStartScore userId script s.store
    let s1 := leaveLeague userId s
    let entity := mkJoinEntity script startingScore newId now
    .ok { store := s1.store ++ [entity]
          rt := orElseSame (rtAdd entity.toRank s1.rt) s1.rt }

/-- The persistent store assigns ids never in use. -/
def FreshId (newId : String) (s : LeagueState) : Prop :=
  (∀ e ∈ s.store, ¬ e.id = newId) ∧ (∀ e ∈ s.rt, ¬ e.id = newId)

/-- One service call mutating the league: a successful `joinLeague` with
a store-assigned fresh id, or a `leaveLeague`. -/
inductive LeagueStep : LeagueState → LeagueState → Prop
  | join (userId : String) (script : Script) (newId : String) (now : Nat)
      (s s' : LeagueState) (hfresh : FreshId newId s)
      (hok : joinLeague userId script newId now s = .ok s') :
      LeagueStep s s'
  | leave (userId : String) (s : LeagueState) :
      LeagueStep s (leaveLeague userId s)

/-- States reachable from the empty league by `joinLeague`/`leaveLeague`
calls. -/
inductive LeagueReachable : LeagueState → Prop
  | init : LeagueReachable emptyLeague
  | step {s s' : LeagueState} :
      LeagueReachable s → LeagueStep s s' → LeagueReachable s'

/-- A fold of id-removals is the single filter keeping entries whose id
matches no removed submission. -/
theorem foldl_filter_eq {α : Type} (gid : α → String) (subs : List StoreEntry) :
    ∀ l : List α,
      subs.foldl (fun acc sub => acc.filter (fun e => decide (¬ gid e = sub.id))) l
        = l.filter (fun e => subs.all (fun sub => decide (¬ gid e = sub.id))) := by
  induction subs with
  | nil => intro l; simp
  | cons x xs ih =>
    intro l
    rw [List.foldl_cons, ih, List.filter_filter]
    refine List.filter_congr (fun a _ => ?_)
    simp [List.all_cons, Bool.and_comm]

theorem leave_store_eq (userId : String) (s : LeagueState) :
    (leaveLeague userId s).store
      = s.store.filter (fun e =>
          (s.store.filter (fun x => decide (x.ownerId = userId))).all
            (fun sub => decide (¬ e.id = sub.id))) := by
  simp only [leaveLeague]
  exact foldl_filter_eq StoreEntry.id _ s.store

theorem leave_rt_eq (userId : String) (s : LeagueState) :
    (leaveLeague userId s).rt
      = s.rt.filter (fun e =>
          (s.store.filter (fun x => decide (x.ownerId = userId))).all
            (fun sub => decide (¬ e.id = sub.id))) := by
  simp only [leaveLeague, rtRemoveList]
  exact foldl_filter_eq RankEntry.id _ s.rt

/-- After `leaveLeague`, no stored entry belongs to the leaving user: each
of the user's submissions is removed by its own id. -/
theorem leave_store_not_owner (userId : String) (s : LeagueState) :
    ∀ e ∈ (leaveLeague userId s).store, ¬ e.ownerId = userId := by
  intro e he hown
  rw [leave_store_eq] at he
  obtain ⟨hmem, hall⟩ := List.mem_filter.mp he
  have hesub : e ∈ s.store.filter (fun x => decide (x.ownerId = userId)) :=
    List.mem_filter.mpr ⟨hmem, decide_eq_true hown⟩
  have := List.all_eq_true.mp hall e hesub
  exact (of_decide_eq_true this) rfl

theorem toRank_id (e : StoreEntry) : e.toRank.id = e.id := rfl

theorem toRank_ownerId (e : StoreEntry) : e.toRank.ownerId = e.ownerId := rfl

/-- After `leaveLeague`, no rank-table entry belongs to the leaving user,
provided the table mirrors the store. -/
theorem leave_rt_not_owner (userId : String) (s : LeagueState)
    (hperm : s.rt.Perm (s.store.map StoreEntry.toRank)) :
    ∀ e ∈ (leaveLeague userId s).rt, ¬ e.ownerId = userId := by
  intro e he hown
  rw [leave_rt_eq] at he
  obtain ⟨hmem, hall⟩ := List.mem_filter.mp he
  obtain ⟨f, hf, hfe⟩ := List.mem_map.mp (hperm.mem_iff.mp hmem)
  have hfown : f.ownerId = userId := by
    rw [← toRank_ownerId, hfe]; exact hown
  have hfsub : f ∈ s.store.filter (fun x => decide (x.ownerId = userId)) :=
    List.mem_filter.mpr ⟨hf, decide_eq_true hfown⟩
  have := List.all_eq_true.mp hall f hfsub
  refine (of_decide_eq_true this) ?_
  rw [← hfe, toRank_id]

/-- Lemma that `leaveLeague` keeps the rank table a permutation of the rank
fields. -/
theorem leave_perm (userId : String) (s : LeagueState)
    (hperm : s.rt.Perm (s.store.map StoreEntry.toRank)) :
    (leaveLeague userId s).rt.Perm
      ((leaveLeague userId s).store.map StoreEntry.toRank) := by
  rw [leave_rt_eq, leave_store_eq]
  refine (hperm.filter _).trans ?_
  rw [List.filter_map]
  exact List.Perm.refl _

theorem joinLeague_ok_elim {userId : String} {script : Script} {newId : String}
    {now : Nat} {s s' : LeagueState}
    (hok : joinLeague userId script newId now s = .ok s') :
    script.ownerId = userId ∧
    s'.store = (leaveLeague userId s).store
        ++ [mkJoinEntity script (joinStartScore userId script s.store) newId now] ∧
    s'.rt = orElseSame
        (rtAdd (mkJoinEntity script (joinStartScore userId script s.store)
          newId now).toRank (leaveLeague userId s).rt)
        (leaveLeague userId s).rt := by
  by_cases hauth : script.ownerId = userId
  · rw [joinLeague, if_neg (not_not_intro hauth)] at hok
    obtain rfl := Except.ok.inj hok
    exact ⟨hauth, rfl, rfl⟩
  · rw [joinLeague, if_pos hauth] at hok
    exact absurd hok (by simp)

/-- With a fresh id, the `ranktable.add` inside `joinLeague` succeeds and
inserts at the sorted position. -/
theorem join_rtAdd_fresh {newId : String} {s : LeagueState}
    (hfresh : FreshId newId s) (script : Script) (sc : Int) (now : Nat) :
    orElseSame
      (rtAdd (mkJoinEntity script sc newId now).toRank (leaveLeague script.ownerId s).rt)
      (leaveLeague script.ownerId s).rt
      = List.orderedInsert rankLE (mkJoinEntity script sc newId now).toRank
          (leaveLeague script.ownerId s).rt := by
  have hany : ((leaveLeague script.ownerId s).rt.any
      (fun x => decide (x.id = (mkJoinEntity script sc newId now).toRank.id))) = false := by
    rw [List.any_eq_false]
    intro x hx
    rw [leave_rt_eq] at hx
    have hxrt : x ∈ s.rt := (List.mem_filter.mp hx).1
    simpa using hfresh.2 x hxrt
  rw [rtAdd, hany]
  simp [orElseSame]

/-- A successful `joinLeague` keeps the rank table a permutation of the
store's rank fields. -/
theorem join_perm {userId : String} {script : Script} {newId : String}
    {now : Nat} {s s' : LeagueState}
    (hperm : s.rt.Perm (s.store.map StoreEntry.toRank))
    (hfresh : FreshId newId s)
    (hok : joinLeague userId script newId now s = .ok s') :
    s'.rt.Perm (s'.store.map StoreEntry.toRank) := by
  obtain ⟨hauth, hstore, hrt⟩ := joinLeague_ok_elim hok
  subst hauth
  rw [hstore, hrt, join_rtAdd_fresh hfresh]
  refine (List.perm_orderedInsert rankLE _ _).trans ?_
  rw [List.map_append]
  refine ((leave_perm script.ownerId s hperm).cons _).trans ?_
  exact (List.perm_append_singleton _ _).symm

/-- Every reachable league state keeps the rank table a permutation of
the store's rank fields. -/
theorem reachable_perm {s : LeagueState} (h : LeagueReachable s) :
    s.rt.Perm (s.store.map StoreEntry.toRank) := by
  induction h with
  | init => exact List.Perm.refl _
  | step hr hstep ih =>
    cases hstep with
    | join userId script newId now s s' hfresh hok =>
      exact join_perm ih hfresh hok
    | leave userId s =>
      exact leave_perm _ _ ih

/-- C9: one league entry per participant — after any reachable state and
any successful `joinLeague` by a user (with the store-assigned fresh id),
both the store and the rank table contain exactly one entry owned by that
user: `joinLeague` removes all of the caller's prior submissions before
creating the new one. -/
theorem join_unique_owner_entry (userId : String) (script : Script)
    (newId : String) (now : Nat) (s s' : LeagueState)
    (hreach : LeagueReachable s) (hfresh : FreshId newId s)
    (hok : joinLeague userId script newId now s = .ok s') :
    (s'.store.filter (fun e => decide (e.ownerId = userId))).length = 1 ∧
    (s'.rt.filter (fun e => decide (e.ownerId = userId))).length = 1 := by
  obtain ⟨hauth, hstore, hrt⟩ := joinLeague_ok_elim hok
  have hperm := reachable_perm hreach
  constructor
  · rw [hstore, List.filter_append]
    have h1 : (leaveLeague userId s).store.filter
        (fun e => decide (e.ownerId = userId)) = [] :=
      List.filter_eq_nil_iff.mpr (fun e he => by
        simpa using leave_store_not_owner userId s e he)
    have h2 : (mkJoinEntity script (joinStartScore userId script s.store)
        newId now).ownerId = userId := hauth
    simp [h1, h2]
  · subst hauth
    rw [hrt, join_rtAdd_fresh hfresh]
    have hp := (List.perm_orderedInsert rankLE
      (mkJoinEntity script (joinStartScore script.ownerId script s.store)
        newId now).toRank (leaveLeague script.ownerId s).rt).filter
      (fun e => decide (e.ownerId = script.ownerId))
    rw [hp.length_eq]
    have h1 : (leaveLeague script.ownerId s).rt.filter
        (fun e => decide (e.ownerId = script.ownerId)) = [] :=
      List.filter_eq_nil_iff.mpr (fun e he => by
        simpa using leave_rt_not_owner script.ownerId s hperm e he)
    have h2 : (mkJoinEntity script (joinStartScore script.ownerId script s.store)
        newId now).toRank.ownerId = script.ownerId := rfl
    simp [h1, h2]

/-- Concrete script for the league-state witnesses. -/
def wScript : Script :=
  { id := "sc1", ownerId := "u1", ownerName := "owner one",
    scriptName := "tank one", code := "code", hash := "h" }

/-- The league state reached by one `joinLeague` of `wScript` from the
empty league. -/
def wState : LeagueState :=
  { store := [mkJoinEntity wScript 0 "e1" 0]
    rt := [(mkJoinEntity wScript 0 "e1" 0).toRank] }

/-- Witness for C9: a concrete successful join from the empty league. -/
theorem join_unique_owner_entry_witness :
    (wState.store.filter (fun e => decide (e.ownerId = "u1"))).length = 1 ∧
    (wState.rt.filter (fun e => decide (e.ownerId = "u1"))).length = 1 :=
  join_unique_owner_entry "u1" wScript "e1" 0 emptyLeague wState
    LeagueReachable.init
    (by constructor <;> simp [emptyLeague]) rfl

/-- C10: the entry created by a successful `joinLeague` starts with the
replaced submission's score when the caller rejoins with the same
`scriptId`, and with score 0 when the `scriptId` differs or the caller
had no submission. -/
theorem join_starting_score (userId : String) (script : Script)
    (newId : String) (now : Nat) (s : LeagueState) (sub : StoreEntry)
    (s' : LeagueState)
    (hok : joinLeague userId script newId now s = .ok s') :
    (s.store.filter (fun e => decide (e.ownerId = userId)) = [sub] →
      ∃ e, s'.store.getLast? = some e ∧ e.scriptId = script.id ∧
        e.score = (if script.id = sub.scriptId then sub.score else 0)) ∧
    (s.store.filter (fun e => decide (e.ownerId = userId)) = [] →
      ∃ e, s'.store.getLast? = some e ∧ e.scriptId = script.id ∧ e.score = 0) := by
  obtain ⟨hauth, hstore, hrt⟩ := joinLeague_ok_elim hok
  constructor
  · intro hfilter
    refine ⟨mkJoinEntity script (joinStartScore userId script s.store) newId now,
      ?_, rfl, ?_⟩
    · rw [hstore]
      exact List.getLast?_concat _
    · simp [joinStartScore, getUserSubmission, hfilter, mkJoinEntity]
  · intro hfilter
    refine ⟨mkJoinEntity script (joinStartScore userId script s.store) newId now,
      ?_, rfl, ?_⟩
    · rw [hstore]
      exact List.getLast?_concat _
    · simp [joinStartScore, getUserSubmission, hfilter, mkJoinEntity]

/-- A league state holding one submission of `wScript`'s owner at score
5, for the C10 witness. -/
def wState5 : LeagueState :=
  { store := [mkJoinEntity wScript 5 "e1" 0]
    rt := [(mkJoinEntity wScript 5 "e1" 0).toRank] }

/-- The state after rejoining with the same script from `wState5`. -/
def wState5After : LeagueState :=
  { store := [mkJoinEntity wScript 5 "e2" 1]
    rt := [(mkJoinEntity wScript 5 "e2" 1).toRank] }

/-- Witness for C10: rejoining with the same `scriptId` carries the old
score 5 over to the fresh entry. -/
theorem join_starting_score_witness :
    ∃ e, wState5After.store.getLast? = some e ∧ e.scriptId = wScript.id ∧
      e.score = (if wScript.id = (mkJoinEntity wScript 5 "e1" 0).scriptId
        then (mkJoinEntity wScript 5 "e1" 0).score else 0) :=
  (join_starting_score "u1" wScript "e2" 1 wState5
    (mkJoinEntity wScript 5 "e1" 0) wState5After rfl).1 rfl

end JsBattle
